import Mathlib

/-!
Verification of the extraction-and-classification pipeline of the
`ai-bazaar` scrapers (`scrapers/common.py`, `scrapers/scrape_github_trending.py`,
`scrapers/scrape_producthunt.py`, `scrapers/scrape_taaft.py`).

Python strings are embedded as `List Char` (ASCII-level: the per-character
case mapping models `str.lower`/`re.IGNORECASE` on the ASCII range, which is
the range every keyword table, regex character class and catalog field of the
source uses).  Fallible code (a Python function that can raise an exception
that its caller does not catch) is embedded with `Except`.
-/

set_option maxRecDepth 8000

/-- Python strings, embedded character by character. -/
abbrev Str := List Char

/-- ASCII case mapping used by `str.lower()` on the characters the scrapers
handle. -/
def pyLowerChar (c : Char) : Char :=
  if 'A' ≤ c ∧ c ≤ 'Z' then Char.ofNat (c.toNat + 32) else c

/-- `str.lower()`. -/
def pyLowerList (t : Str) : Str := t.map pyLowerChar

/-- Python `str.isspace` / regex `\s` on the ASCII range. -/
def pyIsSpace (c : Char) : Bool :=
  c = ' ' ∨ c = '\t' ∨ c = '\n' ∨ c = '\r' ∨ c = '\x0b' ∨ c = '\x0c'

/-- Python `str.strip()` (no argument): remove leading and trailing
whitespace. -/
def pyStrip (t : Str) : Str :=
  ((t.dropWhile pyIsSpace).reverse.dropWhile pyIsSpace).reverse

/-- Helper for Python's substring test: does `needle` occur inside the second
argument? -/
def containsSub (needle : Str) : Str → Bool
  | [] => needle.isPrefixOf []
  | c :: t => needle.isPrefixOf (c :: t) || containsSub needle t

/-- Python `needle in hay` on strings. -/
def strContains (hay needle : Str) : Bool := containsSub needle hay

/-- Python `str.startswith`. -/
def strStarts (t p : Str) : Bool := p.isPrefixOf t

/-- Python `str.endswith` for a single-character suffix. -/
def strEndsChar (t : Str) (c : Char) : Bool := t.getLast? = some c

-- ## Slug generation (`common.slugify`, lines 17-22)

/-- The character class `[a-z0-9]` of the slug regex. -/
def isLowerAlnum (c : Char) : Bool :=
  ('a' ≤ c ∧ c ≤ 'z') ∨ ('0' ≤ c ∧ c ≤ '9')

/-- `re.sub(r"[^a-z0-9]+", "-", slug)`: replace every maximal run of
characters outside `[a-z0-9]` by a single hyphen.  The boolean flag records
whether the previous character was part of such a run. -/
def collapse : Bool → Str → Str
  | _, [] => []
  | inRun, c :: cs =>
    if isLowerAlnum c then c :: collapse false cs
    else if inRun then collapse inRun cs
    else '-' :: collapse true cs

/-- Python `str.strip("-")`. -/
def stripDash (t : Str) : Str :=
  ((t.dropWhile (· = '-')).reverse.dropWhile (· = '-')).reverse

/-- `common.slugify`: lower-case, collapse non-alphanumeric runs to hyphens,
strip hyphens at both ends, then keep the first 100 characters. -/
def slugify (name : Str) : Str :=
  (stripDash (collapse false (name.map pyLowerChar))).take 100

-- ## Category assignment (`common.py`, lines 27-102)

/-- `common.VALID_CATEGORIES` (lines 27-30). -/
def VALID_CATEGORIES : List Str :=
  ["mcp-server".toList, "ai-agent".toList, "web3-tool".toList, "defi-tool".toList,
   "infra".toList, "framework".toList, "saas-tool".toList, "api-service".toList,
   "developer-tool".toList]

/-- The AI keyword set of `categorize_by_keywords` (lines 58-60). -/
def ai_keywords : List Str :=
  ["agent".toList, "llm".toList, "gpt".toList, "claude".toList, "openai".toList,
   "langchain".toList, "artificial intelligence".toList, "machine-learning".toList,
   "generative-ai".toList, "chatbot".toList, "natural-language-processing".toList,
   "automation".toList]

/-- The AI topic set (lines 63-64). -/
def ai_topics : List Str :=
  ["artificial-intelligence".toList, "ai".toList, "machine-learning".toList,
   "ml".toList, "chatbot".toList, "gpt".toList, "llm".toList,
   "generative-ai".toList, "agent".toList]

/-- The DeFi keyword set (line 68); note the trailing space in `"dex "`. -/
def defi_keywords : List Str :=
  ["defi".toList, "swap".toList, "yield".toList, "liquidity".toList,
   "amm".toList, "dex ".toList, "lending".toList]

/-- The DeFi topic set (line 71). -/
def defi_topics : List Str :=
  ["defi".toList, "yield".toList, "swap".toList, "amm".toList,
   "dex".toList, "lending".toList]

/-- The web3 keyword set (line 75). -/
def web3_keywords : List Str :=
  ["web3".toList, "blockchain".toList, "ethereum".toList, "solana".toList,
   "smart contract".toList, "nft".toList, "crypto".toList]

/-- The web3 topic set (line 78). -/
def web3_topics : List Str :=
  ["web3".toList, "blockchain".toList, "ethereum".toList, "solana".toList,
   "crypto".toList, "nft".toList, "wallet".toList]

/-- The infrastructure keyword tuple (lines 82-83); note the leading space in
`" k8s"`. -/
def infra_keywords : List Str :=
  ["kubernetes".toList, " k8s".toList, "docker".toList, "infrastructure".toList,
   "monitoring".toList, "observability".toList]

/-- The developer-tool topic set (line 87). -/
def devtool_topics : List Str :=
  ["developer-tools".toList, "developer".toList, "api".toList, "sdk".toList,
   "open-source".toList, "github".toList]

/-- The developer-tool keyword tuple (line 89). -/
def devtool_keywords : List Str :=
  ["developer tool".toList, "cli tool".toList, "code editor".toList,
   "devtool".toList]

/-- `common.categorize_by_keywords` (lines 32-93): a priority-ordered cascade
of keyword and topic tests, first match wins, defaulting to `framework`. -/
def categorize_by_keywords (text : Str) (topics : Option (List Str))
    (language : Option Str) : Str :=
  let desc := pyLowerList text
  let lang := pyLowerList (language.getD [])
  let topic_set := (topics.getD []).map pyLowerList
  if strContains desc "mcp".toList || strContains desc "model context protocol".toList
      || topic_set.contains "mcp".toList then
    "mcp-server".toList
  else if ai_keywords.any (fun kw => strContains desc kw)
      || strContains desc " ai ".toList || strStarts desc "ai ".toList then
    "ai-agent".toList
  else if ai_topics.any (fun t => topic_set.contains t) then
    "ai-agent".toList
  else if defi_keywords.any (fun kw => strContains desc kw) then
    "defi-tool".toList
  else if defi_topics.any (fun t => topic_set.contains t) then
    "defi-tool".toList
  else if web3_keywords.any (fun kw => strContains desc kw) then
    "web3-tool".toList
  else if web3_topics.any (fun t => topic_set.contains t) then
    "web3-tool".toList
  else if lang = "dockerfile".toList
      || infra_keywords.any (fun kw => strContains desc kw) then
    "infra".toList
  else if devtool_topics.any (fun t => topic_set.contains t) then
    "developer-tool".toList
  else if devtool_keywords.any (fun kw => strContains desc kw) then
    "developer-tool".toList
  else
    "framework".toList

/-- `common.categorize_producthunt` (lines 96-102): remap the `framework`
default to `saas-tool`. -/
def categorize_producthunt (tagline : Str) (topics : List Str) : Str :=
  let cat := categorize_by_keywords tagline (some topics) none
  if cat = "framework".toList then "saas-tool".toList else cat

/-- The category remap inlined in `scrape_taaft.scrape` (lines 110-112):
remap the `framework` default to `ai-agent`. -/
def taaftCategory (name : Str) : Str :=
  let cat := categorize_by_keywords name none none
  if cat = "framework".toList then "ai-agent".toList else cat

-- ## Star-count parsing (`scrape_github_trending.parse_stars`, lines 55-68)

/-- Numeric value of a list of ASCII digits. -/
def natOfDigits (ds : List Char) : Nat :=
  ds.foldl (fun n c => 10 * n + (c.toNat - 48)) 0

/-- Read a Python digit group: digits, where a single underscore may stand
between two digits (`"1_000"`).  Returns the digits read (underscores removed)
and the unread remainder.  An underscore not followed by a digit is left
unread, so an ill-placed underscore surfaces as an unconsumed remainder. -/
def digitsUnd (acc : List Char) : Str → List Char × Str
  | [] => (acc, [])
  | c :: cs =>
    if c.isDigit then digitsUnd (acc ++ [c]) cs
    else if c = '_' then
      match cs with
      | d :: cs2 => if d.isDigit then digitsUnd (acc ++ [d]) cs2 else (acc, c :: cs)
      | [] => (acc, [c])
    else (acc, c :: cs)

/-- Python `int(text)` in base 10 (ASCII digits): optional surrounding
whitespace, optional sign, then a digit group covering the whole rest.
`none` models `ValueError`. -/
def pyIntParse (t : Str) : Option Int :=
  let u := pyStrip t
  let p : Bool × Str :=
    match u with
    | '+' :: r => (false, r)
    | '-' :: r => (true, r)
    | r => (false, r)
  match p.2 with
  | c :: _ =>
    if c.isDigit then
      let d := digitsUnd [] p.2
      if d.2 = [] then
        some (if p.1 then -(natOfDigits d.1 : Int) else (natOfDigits d.1 : Int))
      else none
    else none
  | [] => none

/-- The value of a Python float for the purposes of this code: `float()`
results are modelled as exact decimal values `m * 10 ^ e` (the source only
ever converts them straight to `int`, and every theorem below evaluates them
only on decimally-representable inputs), plus the infinities and NaN. -/
inductive PyFloat where
  | finite (m : Int) (e : Int)
  | infv (neg : Bool)
  | nanv
deriving DecidableEq, Repr

/-- Parse the decimal-number body of a Python float literal (no sign):
`digits [. digits] [e[sign]digits]`, at least one mantissa digit, underscores
between digits.  Returns mantissa digits as a `Nat` and the base-10 exponent.
`none` models `ValueError`. -/
def parseDecimal (r : Str) : Option (Nat × Int) :=
  let ipp : List Char × Str :=
    match r with
    | c :: _ => if c.isDigit then digitsUnd [] r else ([], r)
    | [] => ([], r)
  let fpp : List Char × Str :=
    match ipp.2 with
    | '.' :: rest =>
      (match rest with
       | d :: _ => if d.isDigit then digitsUnd [] rest else ([], rest)
       | [] => ([], rest))
    | _ => ([], ipp.2)
  if ipp.1 ++ fpp.1 = [] then none
  else
    match fpp.2 with
    | [] => some (natOfDigits (ipp.1 ++ fpp.1), -(fpp.1.length : Int))
    | c :: r3 =>
      if c = 'e' ∨ c = 'E' then
        let ep : Bool × Str :=
          match r3 with
          | '+' :: r => (false, r)
          | '-' :: r => (true, r)
          | r => (false, r)
        match ep.2 with
        | d :: _ =>
          if d.isDigit then
            let edd := digitsUnd [] ep.2
            if edd.2 = [] then
              some (natOfDigits (ipp.1 ++ fpp.1),
                (if ep.1 then -(natOfDigits edd.1 : Int) else (natOfDigits edd.1 : Int))
                  - (fpp.1.length : Int))
            else none
          else none
        | [] => none
      else none

/-- The IEEE-754 double-precision overflow threshold `2^1024 - 2^970`: a
decimal value of magnitude at least this rounds to infinity under
round-to-nearest-even, which is what C `strtod` (hence Python `float()`)
does. -/
def floatThreshold : Nat := 2 ^ 1024 - 2 ^ 970

/-- Does `m * 10 ^ e` overflow to infinity? -/
def floatOverflow (m : Nat) (e : Int) : Bool :=
  if 0 ≤ e then floatThreshold ≤ m * 10 ^ e.toNat
  else floatThreshold * 10 ^ (-e).toNat ≤ m

/-- Python `float(text)`: surrounding whitespace, optional sign, then
`inf`/`infinity`/`nan` (case-insensitive) or a decimal number; a finite
decimal too large for a double becomes an infinity.  `none` models
`ValueError`. -/
def pyFloatParse (t : Str) : Option PyFloat :=
  let u := pyStrip t
  let p : Bool × Str :=
    match u with
    | '+' :: r => (false, r)
    | '-' :: r => (true, r)
    | r => (false, r)
  let low := pyLowerList p.2
  if low = "inf".toList ∨ low = "infinity".toList then some (.infv p.1)
  else if low = "nan".toList then some .nanv
  else
    match parseDecimal p.2 with
    | none => none
    | some me =>
      if floatOverflow me.1 me.2 then some (.infv p.1)
      else some (.finite (if p.1 then -(me.1 : Int) else (me.1 : Int)) me.2)

/-- `int(q)` for an exact decimal `q = m * 10 ^ e`: truncation toward zero. -/
def truncScaled (m : Int) (e : Int) : Int :=
  if 0 ≤ e then m * 10 ^ e.toNat else Int.tdiv m (10 ^ (-e).toNat)

/-- `scrape_github_trending.parse_stars` (lines 55-68).  `Except.error ()`
marks the one uncaught exception path: the `try` block catches only
`ValueError`, but `int()` of an infinite float raises `OverflowError`
(`int(nan)` raises `ValueError`, which is caught). -/
def parse_stars (t : Str) : Except Unit Int :=
  let text := (pyStrip t).filter (fun c => c ≠ ',')
  if text = [] then .ok 0
  else if strEndsChar (pyLowerList text) 'k' then
    match pyFloatParse text.dropLast with
    | none => .ok 0
    | some (.finite m e) => .ok (truncScaled m (e + 3))
    | some (.infv _) => .error ()
    | some .nanv => .ok 0
  else
    match pyIntParse text with
    | some n => .ok n
    | none => .ok 0

/-- `scrape_github_trending.language_to_runtime` (lines 71-80). -/
def language_to_runtime (lang : Option Str) : Option Str :=
  match lang with
  | none => none
  | some l =>
    if l = [] then none
    else
      let ll := pyStrip (pyLowerList l)
      if ll = "typescript".toList ∨ ll = "javascript".toList then some "node".toList
      else if ll = "python".toList then some "python".toList
      else if ll = "rust".toList then some "rust".toList
      else if ll = "go".toList then some "go".toList
      else some "other".toList

-- ## Product Hunt markdown extraction (`scrape_producthunt.py`, lines 26-91)

/-- The slug character class `[a-z0-9-]` of both link regexes. -/
def isSlugChar (c : Char) : Bool := isLowerAlnum c || c = '-'

/-- `A ≤ c ≤ Z`, the regex class `[A-Z]`. -/
def isUpperChar (c : Char) : Bool := 'A' ≤ c ∧ c ≤ 'Z'

/-- `a ≤ c ≤ z`, the regex class `[a-z]`. -/
def isLowerChar (c : Char) : Bool := 'a' ≤ c ∧ c ≤ 'z'

/-- The fixed URL part of the Product Hunt link regex. -/
def phUrlBase : Str := "https://www.producthunt.com/products/".toList

/-- Match the Product Hunt link regex
`\[([^\]]+)\]\((https://www\.producthunt\.com/products/([a-z0-9-]+))(?:/reviews[^\)]*)?\)`
at exactly this position.  Every quantified piece of the pattern is a
character class disjoint from the character that must follow it, so the
backtracking regex engine is equivalent to this greedy scan.  Returns the
three capture groups (link text, product URL, slug) and the remainder of the
input after the match. -/
def phMatchAt (cs : Str) : Option ((Str × Str × Str) × Str) :=
  match cs with
  | '[' :: cs1 =>
    let text := cs1.takeWhile (· ≠ ']')
    let rest1 := cs1.dropWhile (· ≠ ']')
    if text = [] then none
    else
      match rest1 with
      | ']' :: '(' :: cs2 =>
        if phUrlBase.isPrefixOf cs2 then
          let cs3 := cs2.drop phUrlBase.length
          let slug := cs3.takeWhile isSlugChar
          let cs4 := cs3.dropWhile isSlugChar
          if slug = [] then none
          else if "/reviews".toList.isPrefixOf cs4 then
            let cs5 := cs4.drop 8
            match cs5.dropWhile (· ≠ ')') with
            | ')' :: cs6 => some ((text, phUrlBase ++ slug, slug), cs6)
            | _ => none
          else
            match cs4 with
            | ')' :: cs5 => some ((text, phUrlBase ++ slug, slug), cs5)
            | _ => none
        else none
      | _ => none
  | _ => none

/-- `re.finditer` for the Product Hunt pattern: scan left to right, taking
the leftmost match at each point and continuing after it.  Fuel-indexed; each
step consumes at least one character, so fuel equal to the input length never
runs out before the input does. -/
def phFindAux : Nat → Str → List (Str × Str × Str)
  | 0, _ => []
  | fuel + 1, cs =>
    match cs with
    | [] => []
    | c :: cs1 =>
      match phMatchAt (c :: cs1) with
      | some gr => gr.1 :: phFindAux fuel gr.2
      | none => phFindAux fuel cs1

/-- All matches of the Product Hunt link regex, in document order. -/
def phFindMatches (md : Str) : List (Str × Str × Str) := phFindAux md.length md

/-- The review-count noise filter `re.match(r'^[\d.,]+K?\s*reviews?$', text,
re.IGNORECASE)` (line 58).  Each quantified class is disjoint from what must
follow it, so the scan is deterministic; `$` also accepts a final newline. -/
def phReviewShape (t : Str) : Bool :=
  let ds := t.takeWhile (fun c => c.isDigit || c = '.' || c = ',')
  let r1 := t.dropWhile (fun c => c.isDigit || c = '.' || c = ',')
  if ds = [] then false
  else
    let r2 : Str :=
      match r1 with
      | 'k' :: r => r
      | 'K' :: r => r
      | r => r
    let low := pyLowerList (r2.dropWhile pyIsSpace)
    low = "review".toList ∨ low = "reviews".toList ∨
      low = "review\n".toList ∨ low = "reviews\n".toList

/-- The navigation stoplist of line 60. -/
def phStoplist : List Str :=
  ["view all".toList, "see all".toList, "reviews".toList, "promoted".toList, []]

/-- States reachable by the star `(?: [A-Z][^\s]+)*` of the name/tagline
split regex: all `(characters consumed so far, remaining input)` pairs, in
increasing order of repetitions.  Each repetition is a literal space, an
upper-case letter and at least one further non-space character, so each
consumes at least three characters and fuel equal to the input length
suffices. -/
def chainStates : Nat → Nat → Str → List (Nat × Str)
  | 0, acc, cs => [(acc, cs)]
  | fuel + 1, acc, cs =>
    (acc, cs) ::
      (match cs with
       | ' ' :: c :: rest =>
         if isUpperChar c then
           let w := rest.takeWhile (fun d => !pyIsSpace d)
           if w = [] then []
           else chainStates fuel (acc + 2 + w.length) (rest.dropWhile (fun d => !pyIsSpace d))
         else []
       | _ => [])

/-- The continuation `\s+(The |A |An |[A-Z][a-z])` of the split regex. -/
def phTailOk (cs : Str) : Bool :=
  let sp := cs.takeWhile pyIsSpace
  let r := cs.dropWhile pyIsSpace
  sp ≠ [] &&
    (strStarts r "The ".toList || strStarts r "A ".toList || strStarts r "An ".toList ||
      (match r with
       | a :: b :: _ => isUpperChar a && isLowerChar b
       | _ => false))

/-- `re.match(r'^([A-Z][^\s]+(?: [A-Z][^\s]+)*)\s+(The |A |An |[A-Z][a-z])', text)`
(line 75), returning `match.end(1)`: the greedy star backtracks from the most
repetitions down until the continuation matches. -/
def nameSplit (text : Str) : Option Nat :=
  match text with
  | c :: rest =>
    if isUpperChar c then
      let w := rest.takeWhile (fun d => !pyIsSpace d)
      if w = [] then none
      else
        let states :=
          chainStates rest.length (1 + w.length) (rest.dropWhile (fun d => !pyIsSpace d))
        states.reverse.findSome? (fun p => if phTailOk p.2 then some p.1 else none)
    else none
  | [] => none

/-- One extracted Product Hunt product (the dict built at lines 84-89). -/
structure PHProd where
  name : Str
  tagline : Str
  url : Str
  slug : Str
deriving DecidableEq, Repr

/-- The loop body of `extract_products_from_markdown` (lines 52-89) for one
regex match `(text, url, slug)`: noise filters, first-occurrence
deduplication by slug, then the name/tagline split. -/
def phStep (acc : List PHProd) (g : Str × Str × Str) : List PHProd :=
  let text := pyStrip g.1
  if phReviewShape text then acc
  else if phStoplist.contains (pyLowerList text) then acc
  else if text.length < 2 ∨ 200 < text.length then acc
  else if acc.any (fun p => p.slug == g.2.2) then acc
  else
    let nt : Str × Str :=
      match nameSplit text with
      | some pos => (pyStrip (text.take pos), pyStrip (text.drop pos))
      | none => (text, [])
    let tagline :=
      if nt.2 = [] then "Discovered on Product Hunt: ".toList ++ nt.1 else nt.2
    acc ++ [⟨nt.1, tagline, g.2.1, g.2.2⟩]

/-- `scrape_producthunt.extract_products_from_markdown` (lines 37-91).
Python's insertion-ordered dict keyed by slug, returned as
`list(products.values())`, is exactly a left fold that appends a product
unless its slug is already present. -/
def extract_products_from_markdown (md : Str) : List PHProd :=
  (phFindMatches md).foldl phStep []

-- ## TAAFT markdown extraction (`scrape_taaft.py`, lines 25-68)

/-- The fixed URL part of the TAAFT link regex. -/
def taaftUrlBase : Str := "https://theresanaiforthat.com/ai/".toList

/-- Match the TAAFT link regex
`\[([^\]]+)\]\(https://theresanaiforthat\.com/ai/([a-z0-9-]+(?:-\d+)?)/?\)`
at exactly this position.  Since `-` and digits already belong to
`[a-z0-9-]`, the optional `(?:-\d+)?` is absorbed by the greedy plus, and the
capture is the maximal `[a-z0-9-]` run.  Returns the capture groups
(link text, slug) and the remainder after the match. -/
def taaftMatchAt (cs : Str) : Option ((Str × Str) × Str) :=
  match cs with
  | '[' :: cs1 =>
    let text := cs1.takeWhile (· ≠ ']')
    let rest1 := cs1.dropWhile (· ≠ ']')
    if text = [] then none
    else
      match rest1 with
      | ']' :: '(' :: cs2 =>
        if taaftUrlBase.isPrefixOf cs2 then
          let cs3 := cs2.drop taaftUrlBase.length
          let slug := cs3.takeWhile isSlugChar
          let cs4 := cs3.dropWhile isSlugChar
          if slug = [] then none
          else
            match cs4 with
            | '/' :: ')' :: cs5 => some ((text, slug), cs5)
            | ')' :: cs5 => some ((text, slug), cs5)
            | _ => none
        else none
      | _ => none
  | _ => none

/-- `re.finditer` for the TAAFT pattern (same fuel discipline as
`phFindAux`). -/
def taaftFindAux : Nat → Str → List (Str × Str)
  | 0, _ => []
  | fuel + 1, cs =>
    match cs with
    | [] => []
    | c :: cs1 =>
      match taaftMatchAt (c :: cs1) with
      | some gr => gr.1 :: taaftFindAux fuel gr.2
      | none => taaftFindAux fuel cs1

/-- The pure-number noise filter `re.match(r'^[\d,.\s]+$', text)` (line 48). -/
def taaftPureNum (t : Str) : Bool :=
  t ≠ [] && t.all (fun c => c.isDigit || c = ',' || c = '.' || pyIsSpace c)

/-- `re.sub(r'\s+v[\d.]+\s*$', '', text)` (line 58): strip one trailing
version marker.  Anchored at the end, each class disjoint from its
neighbour, so the match (if any) is the suffix read off right to left. -/
def stripVersionSuffix (t : Str) : Str :=
  let r := t.reverse
  let r1 := r.dropWhile pyIsSpace
  let ds := r1.takeWhile (fun c => c.isDigit || c = '.')
  let r2 := r1.dropWhile (fun c => c.isDigit || c = '.')
  if ds = [] then t
  else
    match r2 with
    | 'v' :: r3 =>
      let r4 := r3.dropWhile pyIsSpace
      if r3.length = r4.length then t
      else r4.reverse
    | _ => t

/-- One extracted TAAFT tool (the dict built at lines 62-66). -/
structure TTool where
  name : Str
  slug : Str
  url : Str
deriving DecidableEq, Repr

/-- The loop body of `extract_tools_from_markdown` (lines 39-66) for one
regex match `(text, slug)`: first-occurrence deduplication by slug, noise
filters, version-suffix cleanup. -/
def taaftStep (acc : List TTool) (g : Str × Str) : List TTool :=
  let text := pyStrip g.1
  if acc.any (fun p => p.slug == g.2) then acc
  else if taaftPureNum text then acc
  else if strStarts (pyLowerList text) "free".toList then acc
  else if text.head? = some '$' then acc
  else if text.length < 2 ∨ 100 < text.length then acc
  else
    let name := pyStrip (stripVersionSuffix text)
    if name = [] then acc
    else acc ++ [⟨name, g.2, taaftUrlBase ++ g.2 ++ "/".toList⟩]

/-- `scrape_taaft.extract_tools_from_markdown` (lines 25-68). -/
def extract_tools_from_markdown (md : Str) : List TTool :=
  (taaftFindAux md.length md).foldl taaftStep []

-- ## GitHub Trending pipeline (`scrape_github_trending.scrape`, lines 83-142)

/-- `scrape_github_trending.MAX_RESULTS` (line 19). -/
def MAX_RESULTS_GH : Nat := 50

/-- One CSS-extracted row (the dict produced by the extraction schema);
`row.get(...)` of an absent field is `none`. -/
structure GHRow where
  repo_path : Option Str
  description : Option Str
  language : Option Str
  stars_text : Option Str

/-- One entry of the github-trending output list (lines 122-133). -/
structure GHEntry where
  slug : Str
  name : Str
  tagline : Str
  description : Str
  category : Str
  tags : List Str
  sourceUrl : Str
  runtime : Option Str
  stars : Int
  submittedBy : Str
deriving DecidableEq, Repr

/-- The per-run accumulator of `scrape`: the seen-set of `repo_path` keys and
the output list. -/
structure GHState where
  seen : List Str
  entries : List GHEntry
deriving DecidableEq, Repr

/-- `lang = (row.get("language") or "").strip() or None` (line 117). -/
def ghLang (row : GHRow) : Option Str :=
  let s := pyStrip (row.language.getD [])
  if s = [] then none else some s

/-- The entry dict built at lines 122-133 from a surviving row. -/
def ghMkEntry (repo_path desc : Str) (lang : Option Str) (stars : Int) : GHEntry :=
  let full_name := repo_path.dropWhile (· = '/')
  { slug := slugify full_name
    name := full_name
    tagline := (if desc = [] then "GitHub trending: ".toList ++ full_name else desc).take 160
    description := if desc = [] then "No description provided for ".toList ++ full_name else desc
    category := categorize_by_keywords desc none lang
    tags := []
    sourceUrl := "https://github.com/".toList ++ full_name
    runtime := language_to_runtime lang
    stars := stars
    submittedBy := "crawl4ai-github-trending".toList }

/-- The loop body for one row (lines 108-133): skip empty or already-seen
keys, otherwise record the key and append the entry.  The `Except` carries
the uncaught `OverflowError` that `parse_stars` can raise. -/
def ghProcessRow (st : GHState) (row : GHRow) : Except Unit GHState :=
  let repo_path := pyStrip (row.repo_path.getD [])
  if repo_path = [] ∨ repo_path ∈ st.seen then .ok st
  else
    match parse_stars (row.stars_text.getD []) with
    | .error e => .error e
    | .ok stars =>
      .ok { seen := repo_path :: st.seen,
            entries := st.entries ++
              [ghMkEntry repo_path (pyStrip (row.description.getD [])) (ghLang row) stars] }

/-- The inner row loop with its cap check (lines 108-136). -/
def ghRowsLoop : GHState → List GHRow → Except Unit GHState
  | st, [] => .ok st
  | st, r :: rs =>
    match ghProcessRow st r with
    | .error e => .error e
    | .ok st' =>
      if MAX_RESULTS_GH ≤ st'.entries.length then .ok st' else ghRowsLoop st' rs

/-- The outer URL loop with its cap check (lines 95-139); a fetch that fails
or yields no content contributes an empty row list. -/
def ghBlobsLoop : GHState → List (List GHRow) → Except Unit GHState
  | st, [] => .ok st
  | st, rows :: bs =>
    match ghRowsLoop st rows with
    | .error e => .error e
    | .ok st' =>
      if MAX_RESULTS_GH ≤ st'.entries.length then .ok st' else ghBlobsLoop st' bs

/-- `scrape_github_trending.scrape`, abstracted over the fetched row blobs. -/
def ghScrape (blobs : List (List GHRow)) : Except Unit GHState :=
  ghBlobsLoop ⟨[], []⟩ blobs

-- ## Product Hunt pipeline (`scrape_producthunt.scrape`, lines 94-162)

/-- `scrape_producthunt.MAX_RESULTS` (line 18). -/
def MAX_RESULTS_PH : Nat := 100

/-- One entry of the producthunt/taaft output lists (identical field sets,
lines 143-153 and 114-124 respectively; no `runtime` field). -/
structure CatEntry where
  slug : Str
  name : Str
  tagline : Str
  description : Str
  category : Str
  tags : List Str
  sourceUrl : Str
  stars : Int
  submittedBy : Str
deriving DecidableEq, Repr

/-- The per-run accumulator of the Product Hunt `scrape`. -/
structure PHState where
  seen : List Str
  entries : List CatEntry
deriving DecidableEq, Repr

/-- The entry dict built at lines 143-153 from a surviving product. -/
def phMkEntry (topics : List Str) (p : PHProd) : CatEntry :=
  { slug := p.slug
    name := p.name
    tagline := p.tagline.take 160
    description :=
      if p.tagline = [] then "Discovered on Product Hunt: ".toList ++ p.name else p.tagline
    category := categorize_producthunt p.tagline topics
    tags := if topics = [] then ["product-hunt".toList] else topics
    sourceUrl := p.url
    stars := 0
    submittedBy := "crawl4ai-producthunt".toList }

/-- The loop body for one extracted product (lines 136-153). -/
def phProcessProd (topics : List Str) (st : PHState) (p : PHProd) : PHState :=
  if p.slug ∈ st.seen then st
  else { seen := p.slug :: st.seen, entries := st.entries ++ [phMkEntry topics p] }

/-- The inner product loop with its cap check (lines 136-156). -/
def phProdLoop (topics : List Str) : PHState → List PHProd → PHState
  | st, [] => st
  | st, p :: ps =>
    let st' := phProcessProd topics st p
    if MAX_RESULTS_PH ≤ st'.entries.length then st' else phProdLoop topics st' ps

/-- The outer URL loop (lines 111-159), abstracted over the fetched blobs:
each blob is the topic list derived from its URL plus the rendered
markdown. -/
def phBlobLoop : PHState → List (List Str × Str) → PHState
  | st, [] => st
  | st, b :: bs =>
    let st' := phProdLoop b.1 st (extract_products_from_markdown b.2)
    if MAX_RESULTS_PH ≤ st'.entries.length then st' else phBlobLoop st' bs

/-- `scrape_producthunt.scrape`, abstracted over the fetched blobs. -/
def phScrape (blobs : List (List Str × Str)) : PHState := phBlobLoop ⟨[], []⟩ blobs

-- ## TAAFT pipeline (`scrape_taaft.scrape`, lines 71-133)

/-- `scrape_taaft.MAX_RESULTS` (line 17). -/
def MAX_RESULTS_TAAFT : Nat := 100

/-- The per-run accumulator of the TAAFT `scrape`. -/
structure TState where
  seen : List Str
  entries : List CatEntry
deriving DecidableEq, Repr

/-- The entry dict built at lines 114-124 from a surviving tool. -/
def taaftMkEntry (t : TTool) : CatEntry :=
  { slug := slugify t.name
    name := t.name
    tagline := ("AI tool: ".toList ++ t.name).take 160
    description := "Discovered on There's An AI For That: ".toList ++ t.name
    category := taaftCategory t.name
    tags := ["ai".toList]
    sourceUrl := t.url
    stars := 0
    submittedBy := "crawl4ai-taaft".toList }

/-- The loop body for one extracted tool (lines 103-124). -/
def taaftProcessTool (st : TState) (t : TTool) : TState :=
  if t.slug ∈ st.seen then st
  else { seen := t.slug :: st.seen, entries := st.entries ++ [taaftMkEntry t] }

/-- The inner tool loop with its cap check (lines 103-127). -/
def taaftToolLoop : TState → List TTool → TState
  | st, [] => st
  | st, t :: ts =>
    let st' := taaftProcessTool st t
    if MAX_RESULTS_TAAFT ≤ st'.entries.length then st' else taaftToolLoop st' ts

/-- The outer URL loop (lines 82-130), abstracted over the fetched markdown
blobs. -/
def taaftBlobLoop : TState → List Str → TState
  | st, [] => st
  | st, md :: bs =>
    let st' := taaftToolLoop st (extract_tools_from_markdown md)
    if MAX_RESULTS_TAAFT ≤ st'.entries.length then st' else taaftBlobLoop st' bs

/-- `scrape_taaft.scrape`, abstracted over the fetched markdown blobs. -/
def taaftScrape (blobs : List Str) : TState := taaftBlobLoop ⟨[], []⟩ blobs
-- ## Shared lemmas

/-- The seven categories the cascade can actually return: its branches are
literals. -/
def CATEGORIZE_RANGE : List Str :=
  ["mcp-server".toList, "ai-agent".toList, "defi-tool".toList, "web3-tool".toList,
   "infra".toList, "developer-tool".toList, "framework".toList]

theorem categorize_mem_range (t : Str) (tp : Option (List Str)) (lg : Option Str) :
    categorize_by_keywords t tp lg ∈ CATEGORIZE_RANGE := by
  unfold categorize_by_keywords
  dsimp only
  repeat' split
  all_goals decide

theorem categorize_producthunt_ne_api (tl : Str) (tp : List Str) :
    categorize_producthunt tl tp ≠ "api-service".toList := by
  unfold categorize_producthunt
  dsimp only
  split
  · decide
  · have h := categorize_mem_range tl (some tp) none
    intro hc
    rw [hc] at h
    revert h
    decide

theorem taaftCategory_ne_api (n : Str) : taaftCategory n ≠ "api-service".toList := by
  unfold taaftCategory
  dsimp only
  split
  · decide
  · have h := categorize_mem_range n none none
    intro hc
    rw [hc] at h
    revert h
    decide

theorem head?_dropWhile_not {p : Char → Bool} {l : Str} {c : Char}
    (h : (l.dropWhile p).head? = some c) : p c = false := by
  induction l with
  | nil => simp [List.dropWhile] at h
  | cons a t ih =>
    rw [List.dropWhile_cons] at h
    split at h
    · exact ih h
    · simp at h
      subst h
      simp_all

theorem collapse_chars {b : Bool} {l : Str} {c : Char}
    (h : c ∈ collapse b l) : isLowerAlnum c = true ∨ c = '-' := by
  induction l generalizing b with
  | nil => simp [collapse] at h
  | cons a t ih =>
    rw [collapse] at h
    split at h
    · rcases List.mem_cons.mp h with h1 | h1
      · subst h1; simp_all
      · exact ih h1
    · split at h
      · exact ih h
      · rcases List.mem_cons.mp h with h1 | h1
        · right; exact h1
        · exact ih h1

theorem stripDash_subset {l : Str} : stripDash l ⊆ l := by
  unfold stripDash
  intro c hc
  rw [List.mem_reverse] at hc
  have h1 := (List.dropWhile_sublist (l := (l.dropWhile (· = '-')).reverse)
    (p := (· = '-'))).subset hc
  rw [List.mem_reverse] at h1
  exact (List.dropWhile_sublist (l := l) (p := (· = '-'))).subset h1

theorem slugify_chars {n : Str} {c : Char} (h : c ∈ slugify n) :
    isLowerAlnum c = true ∨ c = '-' := by
  unfold slugify at h
  have h1 := List.take_subset 100 _ h
  exact collapse_chars (stripDash_subset h1)

theorem stripDash_head {l : Str} {c : Char} (h : (stripDash l).head? = some c) :
    c ≠ '-' := by
  unfold stripDash at h
  have hsuf : ((l.dropWhile (· = '-')).reverse.dropWhile (· = '-'))
      <:+ (l.dropWhile (· = '-')).reverse := List.dropWhile_suffix _
  have hpre := List.reverse_prefix.mpr hsuf
  rw [List.reverse_reverse] at hpre
  obtain ⟨w, hw⟩ := hpre
  have hc : (l.dropWhile (· = '-')).head? = some c := by
    rw [← hw, List.head?_append, h]
    rfl
  have := head?_dropWhile_not hc
  simpa using this

theorem stripDash_getLast {l : Str} {c : Char}
    (h : (stripDash l).getLast? = some c) : c ≠ '-' := by
  unfold stripDash at h
  rw [List.getLast?_reverse] at h
  have := head?_dropWhile_not h
  simpa using this

theorem slugify_head {n : Str} {c : Char} (h : (slugify n).head? = some c) :
    c ≠ '-' := by
  unfold slugify at h
  rw [List.head?_take] at h
  rw [if_neg (by decide)] at h
  exact stripDash_head h

theorem slugify_getLast_of_short {n : Str} {c : Char}
    (hlen : (stripDash (collapse false (n.map pyLowerChar))).length ≤ 100)
    (h : (slugify n).getLast? = some c) : c ≠ '-' := by
  unfold slugify at h
  rw [List.take_of_length_le hlen] at h
  exact stripDash_getLast h

theorem slugify_length (n : Str) : (slugify n).length ≤ 100 := by
  unfold slugify
  simp [List.length_take]
-- ## Claim C1

/-- C1: for every input text, every optional topic list and every optional
language hint, `categorize_by_keywords` terminates without error (it is a
total function in this embedding, mirroring code that can raise no
exception) and returns an element of the closed nine-element
`VALID_CATEGORIES`. -/
theorem claim_C1_categorize_total_valid (t : Str) (tp : Option (List Str))
    (lg : Option Str) : categorize_by_keywords t tp lg ∈ VALID_CATEGORIES := by
  have h := categorize_mem_range t tp lg
  have hsub : ∀ x ∈ CATEGORIZE_RANGE, x ∈ VALID_CATEGORIES := by decide
  exact hsub _ h

-- ## Claim C2

/-- C2 counterexample: the claim "slugify(n) ... contains no trailing
hyphen" fails.  `strip("-")` runs before the `[:100]` truncation, so a name
of 99 `a`s followed by `!b` slugifies to 99 `a`s followed by a hyphen: the
100th character, a hyphen produced from `!`, survives as the last
character. -/
theorem claim_C2_counterexample :
    (slugify (List.replicate 99 'a' ++ ['!', 'b'])).getLast? = some '-' := by decide

/-- C2 amended: `slugify(n)` always matches `^[a-z0-9-]{0,100}$` and never
has a leading hyphen; it also has no trailing hyphen whenever the
hyphen-stripped slug already fits in 100 characters (truncation to 100 can
expose a trailing hyphen, as the counterexample shows). -/
theorem claim_C2_slug_shape (n : Str) :
    (∀ c ∈ slugify n, isLowerAlnum c = true ∨ c = '-') ∧
    (slugify n).length ≤ 100 ∧
    (∀ c, (slugify n).head? = some c → c ≠ '-') ∧
    ((stripDash (collapse false (n.map pyLowerChar))).length ≤ 100 →
      ∀ c, (slugify n).getLast? = some c → c ≠ '-') :=
  ⟨fun _ hc => slugify_chars hc, slugify_length n,
   fun _ h => slugify_head h, fun hlen _ h => slugify_getLast_of_short hlen h⟩

/-- Witness for C2 at the concrete name `"My App!"` (slug `"my-app"`). -/
theorem claim_C2_witness :
    (isLowerAlnum 'm' = true ∨ 'm' = '-') ∧
    (slugify "My App!".toList).length ≤ 100 ∧ 'm' ≠ '-' ∧ 'p' ≠ '-' :=
  ⟨(claim_C2_slug_shape "My App!".toList).1 'm' (by decide),
   (claim_C2_slug_shape "My App!".toList).2.1,
   (claim_C2_slug_shape "My App!".toList).2.2.1 'm' (by decide),
   (claim_C2_slug_shape "My App!".toList).2.2.2 (by decide) 'p' (by decide)⟩

-- ## Claim C3

/-- C3: the cascade applies its rules in strict priority order with the
first match winning: `"mcp server for defi swaps"` (which also hits the
DeFi and web3 keyword sets) classifies as `mcp-server` because rule 1 fires
first; `"a yield-farming defi protocol"` classifies as `defi-tool`, not
`web3-tool`; and in general any text whose lower-casing contains `"mcp"`
classifies as `mcp-server` no matter what the later rules would say. -/
theorem claim_C3_priority :
    categorize_by_keywords "mcp server for defi swaps".toList none none
      = "mcp-server".toList ∧
    categorize_by_keywords "a yield-farming defi protocol".toList none none
      = "defi-tool".toList ∧
    ∀ t tp lg, strContains (pyLowerList t) "mcp".toList = true →
      categorize_by_keywords t tp lg = "mcp-server".toList := by
  refine ⟨by rfl, by rfl, ?_⟩
  intro t tp lg h
  unfold categorize_by_keywords
  dsimp only
  rw [h]
  rfl

/-- Witness for C3's universal part at the concrete text `"MCP rocks"`. -/
theorem claim_C3_witness :
    strContains (pyLowerList "MCP rocks".toList) "mcp".toList = true ∧
    categorize_by_keywords "MCP rocks".toList none none = "mcp-server".toList :=
  ⟨by decide, claim_C3_priority.2.2 "MCP rocks".toList none none (by decide)⟩
-- ## GitHub pipeline lemmas

/-- The dedup key of a row: the stripped `repo_path` (line 109). -/
def ghRowKey (row : GHRow) : Str := pyStrip (row.repo_path.getD [])

theorem ghProcessRow_ok_cases {st : GHState} {row : GHRow} {st' : GHState}
    (h : ghProcessRow st row = .ok st') :
    st' = st ∨
      ∃ stars, st' = ⟨ghRowKey row :: st.seen,
        st.entries ++ [ghMkEntry (ghRowKey row)
          (pyStrip (row.description.getD [])) (ghLang row) stars]⟩ := by
  unfold ghProcessRow at h
  dsimp only at h
  split at h
  · left
    injection h with h
    exact h.symm
  · split at h
    · exact Except.noConfusion h
    · rename_i stars heq
      right
      refine ⟨stars, ?_⟩
      injection h with h
      exact h.symm

theorem ghProcessRow_seen_mono {st : GHState} {row : GHRow} {st' : GHState}
    (h : ghProcessRow st row = .ok st') : st.seen ⊆ st'.seen := by
  rcases ghProcessRow_ok_cases h with h1 | ⟨s, h1⟩ <;> subst h1
  · exact fun x hx => hx
  · exact fun x hx => List.mem_cons_of_mem _ hx

theorem ghProcessRow_len {st : GHState} {row : GHRow} {st' : GHState}
    (h : ghProcessRow st row = .ok st') :
    st.entries.length ≤ st'.entries.length ∧
      st'.entries.length ≤ st.entries.length + 1 := by
  rcases ghProcessRow_ok_cases h with h1 | ⟨s, h1⟩ <;> subst h1 <;> simp

theorem ghProcessRow_entries_inv {P : GHEntry → Prop}
    (hmk : ∀ a b c d, P (ghMkEntry a b c d)) {st : GHState} {row : GHRow}
    {st' : GHState} (h : ghProcessRow st row = .ok st')
    (hst : ∀ e ∈ st.entries, P e) : ∀ e ∈ st'.entries, P e := by
  rcases ghProcessRow_ok_cases h with h1 | ⟨s, h1⟩ <;> subst h1
  · exact hst
  · intro e he
    rcases List.mem_append.mp he with h2 | h2
    · exact hst e h2
    · rw [List.mem_singleton] at h2
      subst h2
      exact hmk _ _ _ _

theorem ghProcessRow_seen_skip {st : GHState} {row : GHRow}
    (h : ghRowKey row ∈ st.seen) : ghProcessRow st row = .ok st := by
  unfold ghRowKey at h
  unfold ghProcessRow
  dsimp only
  split
  · rfl
  · rename_i hcond
    exact absurd (Or.inr h) hcond

theorem ghRowsLoop_seen_mono :
    ∀ rows (st st' : GHState), ghRowsLoop st rows = .ok st' → st.seen ⊆ st'.seen := by
  intro rows
  induction rows with
  | nil =>
    intro st st' h
    injection h with h
    subst h
    exact fun x hx => hx
  | cons r rs ih =>
    intro st st' h
    rw [ghRowsLoop] at h
    split at h
    · exact Except.noConfusion h
    · rename_i st2 heq
      split at h
      · injection h with h
        subst h
        exact ghProcessRow_seen_mono heq
      · exact (ghProcessRow_seen_mono heq).trans (ih st2 st' h)

theorem ghBlobsLoop_seen_mono :
    ∀ bs (st st' : GHState), ghBlobsLoop st bs = .ok st' → st.seen ⊆ st'.seen := by
  intro bs
  induction bs with
  | nil =>
    intro st st' h
    injection h with h
    subst h
    exact fun x hx => hx
  | cons b bs ih =>
    intro st st' h
    rw [ghBlobsLoop] at h
    split at h
    · exact Except.noConfusion h
    · rename_i st2 heq
      split at h
      · injection h with h
        subst h
        exact ghRowsLoop_seen_mono b st st2 heq
      · exact (ghRowsLoop_seen_mono b st st2 heq).trans (ih st2 st' h)

theorem ghRowsLoop_entries_inv {P : GHEntry → Prop}
    (hmk : ∀ a b c d, P (ghMkEntry a b c d)) :
    ∀ rows (st st' : GHState), ghRowsLoop st rows = .ok st' →
      (∀ e ∈ st.entries, P e) → ∀ e ∈ st'.entries, P e := by
  intro rows
  induction rows with
  | nil =>
    intro st st' h hst
    injection h with h
    subst h
    exact hst
  | cons r rs ih =>
    intro st st' h hst
    rw [ghRowsLoop] at h
    split at h
    · exact Except.noConfusion h
    · rename_i st2 heq
      split at h
      · injection h with h
        subst h
        exact ghProcessRow_entries_inv hmk heq hst
      · exact ih st2 st' h (ghProcessRow_entries_inv hmk heq hst)

theorem ghBlobsLoop_entries_inv {P : GHEntry → Prop}
    (hmk : ∀ a b c d, P (ghMkEntry a b c d)) :
    ∀ bs (st st' : GHState), ghBlobsLoop st bs = .ok st' →
      (∀ e ∈ st.entries, P e) → ∀ e ∈ st'.entries, P e := by
  intro bs
  induction bs with
  | nil =>
    intro st st' h hst
    injection h with h
    subst h
    exact hst
  | cons b bs ih =>
    intro st st' h hst
    rw [ghBlobsLoop] at h
    split at h
    · exact Except.noConfusion h
    · rename_i st2 heq
      split at h
      · injection h with h
        subst h
        exact ghRowsLoop_entries_inv hmk b st st2 heq hst
      · exact ih st2 st' h (ghRowsLoop_entries_inv hmk b st st2 heq hst)

theorem ghScrape_entries_inv {P : GHEntry → Prop}
    (hmk : ∀ a b c d, P (ghMkEntry a b c d)) {blobs : List (List GHRow)}
    {st : GHState} (h : ghScrape blobs = .ok st) : ∀ e ∈ st.entries, P e := by
  refine ghBlobsLoop_entries_inv hmk blobs ⟨[], []⟩ st h ?_
  intro e he
  simp at he

theorem ghRowsLoop_len_le :
    ∀ rows (st st' : GHState), ghRowsLoop st rows = .ok st' →
      st.entries.length < MAX_RESULTS_GH → st'.entries.length ≤ MAX_RESULTS_GH := by
  intro rows
  induction rows with
  | nil =>
    intro st st' h hlt
    injection h with h
    subst h
    exact Nat.le_of_lt hlt
  | cons r rs ih =>
    intro st st' h hlt
    rw [ghRowsLoop] at h
    split at h
    · exact Except.noConfusion h
    · rename_i st2 heq
      have hb := ghProcessRow_len heq
      split at h
      · injection h with h
        subst h
        omega
      · rename_i hcap
        exact ih st2 st' h (by omega)

theorem ghBlobsLoop_len_le :
    ∀ bs (st st' : GHState), ghBlobsLoop st bs = .ok st' →
      st.entries.length < MAX_RESULTS_GH → st'.entries.length ≤ MAX_RESULTS_GH := by
  intro bs
  induction bs with
  | nil =>
    intro st st' h hlt
    injection h with h
    subst h
    exact Nat.le_of_lt hlt
  | cons b bs ih =>
    intro st st' h hlt
    rw [ghBlobsLoop] at h
    split at h
    · exact Except.noConfusion h
    · rename_i st2 heq
      have hb := ghRowsLoop_len_le b st st2 heq hlt
      split at h
      · injection h with h
        subst h
        exact hb
      · rename_i hcap
        exact ih st2 st' h (by omega)
/-- Does a row's star text parse without the uncaught-exception path? -/
def ghStarsOk (row : GHRow) : Bool :=
  match parse_stars (row.stars_text.getD []) with
  | .ok _ => true
  | .error _ => false

theorem ghRowsLoop_exact :
    ∀ rows (st : GHState),
      (∀ r ∈ rows, ghRowKey r ≠ [] ∧ ghRowKey r ∉ st.seen ∧ ghStarsOk r = true) →
      (rows.map ghRowKey).Nodup → st.entries.length < MAX_RESULTS_GH →
      ∃ st', ghRowsLoop st rows = .ok st' ∧
        st'.entries.length = min MAX_RESULTS_GH (st.entries.length + rows.length) := by
  intro rows
  induction rows with
  | nil =>
    intro st hall hnd hlt
    refine ⟨st, rfl, ?_⟩
    simp
    omega
  | cons r rs ih =>
    intro st hall hnd hlt
    obtain ⟨hk, hns, hok⟩ := hall r (List.mem_cons_self r rs)
    unfold ghStarsOk at hok
    rcases hps : parse_stars (r.stars_text.getD []) with e | v
    · rw [hps] at hok
      simp at hok
    · have hpr : ghProcessRow st r = .ok ⟨ghRowKey r :: st.seen,
          st.entries ++ [ghMkEntry (ghRowKey r) (pyStrip (r.description.getD []))
            (ghLang r) v]⟩ := by
        unfold ghProcessRow
        dsimp only
        split
        · rename_i hcond
          unfold ghRowKey at hk hns
          exact absurd hcond (not_or.mpr ⟨hk, hns⟩)
        · rw [hps]
          unfold ghRowKey
          rfl
      rw [ghRowsLoop, hpr]
      dsimp only
      split
      · rename_i hcap
        refine ⟨_, rfl, ?_⟩
        simp at hcap ⊢
        omega
      · rename_i hcap
        have hall2 : ∀ r' ∈ rs, ghRowKey r' ≠ [] ∧
            ghRowKey r' ∉ (ghRowKey r :: st.seen) ∧ ghStarsOk r' = true := by
          intro r' hr'
          obtain ⟨a, b, c⟩ := hall r' (List.mem_cons_of_mem _ hr')
          refine ⟨a, ?_, c⟩
          intro hmem
          rcases List.mem_cons.mp hmem with he | he
          · have hnotin : ghRowKey r ∉ rs.map ghRowKey := (List.nodup_cons.mp hnd).1
            exact hnotin (he ▸ List.mem_map_of_mem _ hr')
          · exact b he
        have hlt2 : (st.entries ++ [ghMkEntry (ghRowKey r)
            (pyStrip (r.description.getD [])) (ghLang r) v]).length
              < MAX_RESULTS_GH := by
          simp at hcap ⊢
          omega
        obtain ⟨st', hloop, hlen⟩ :=
          ih ⟨ghRowKey r :: st.seen,
            st.entries ++ [ghMkEntry (ghRowKey r)
              (pyStrip (r.description.getD [])) (ghLang r) v]⟩ hall2
            (List.nodup_cons.mp hnd).2 hlt2
        refine ⟨st', hloop, ?_⟩
        simp at hlen ⊢
        omega
-- ## Product Hunt / TAAFT pipeline lemmas

theorem phProcessProd_entries_inv {P : CatEntry → Prop}
    (hmk : ∀ tp p, P (phMkEntry tp p)) {tp : List Str} {st : PHState} {p : PHProd}
    (hst : ∀ e ∈ st.entries, P e) : ∀ e ∈ (phProcessProd tp st p).entries, P e := by
  unfold phProcessProd
  split
  · exact hst
  · intro e he
    dsimp only at he
    rcases List.mem_append.mp he with h2 | h2
    · exact hst e h2
    · rw [List.mem_singleton] at h2
      subst h2
      exact hmk _ _

theorem phProdLoop_entries_inv {P : CatEntry → Prop}
    (hmk : ∀ tp p, P (phMkEntry tp p)) :
    ∀ ps (tp : List Str) (st : PHState), (∀ e ∈ st.entries, P e) →
      ∀ e ∈ (phProdLoop tp st ps).entries, P e := by
  intro ps
  induction ps with
  | nil => intro tp st hst; exact hst
  | cons p ps ih =>
    intro tp st hst
    rw [phProdLoop]
    split
    · exact phProcessProd_entries_inv hmk hst
    · exact ih tp _ (phProcessProd_entries_inv hmk hst)

theorem phBlobLoop_entries_inv {P : CatEntry → Prop}
    (hmk : ∀ tp p, P (phMkEntry tp p)) :
    ∀ bs (st : PHState), (∀ e ∈ st.entries, P e) →
      ∀ e ∈ (phBlobLoop st bs).entries, P e := by
  intro bs
  induction bs with
  | nil => intro st hst; exact hst
  | cons b bs ih =>
    intro st hst
    rw [phBlobLoop]
    split
    · exact phProdLoop_entries_inv hmk _ b.1 st hst
    · exact ih _ (phProdLoop_entries_inv hmk _ b.1 st hst)

theorem phScrape_entries_inv {P : CatEntry → Prop}
    (hmk : ∀ tp p, P (phMkEntry tp p)) (blobs : List (List Str × Str)) :
    ∀ e ∈ (phScrape blobs).entries, P e := by
  refine phBlobLoop_entries_inv hmk blobs ⟨[], []⟩ ?_
  intro e he
  simp at he

theorem taaftProcessTool_entries_inv {P : CatEntry → Prop}
    (hmk : ∀ t, P (taaftMkEntry t)) {st : TState} {t : TTool}
    (hst : ∀ e ∈ st.entries, P e) : ∀ e ∈ (taaftProcessTool st t).entries, P e := by
  unfold taaftProcessTool
  split
  · exact hst
  · intro e he
    dsimp only at he
    rcases List.mem_append.mp he with h2 | h2
    · exact hst e h2
    · rw [List.mem_singleton] at h2
      subst h2
      exact hmk _

theorem taaftToolLoop_entries_inv {P : CatEntry → Prop}
    (hmk : ∀ t, P (taaftMkEntry t)) :
    ∀ ts (st : TState), (∀ e ∈ st.entries, P e) →
      ∀ e ∈ (taaftToolLoop st ts).entries, P e := by
  intro ts
  induction ts with
  | nil => intro st hst; exact hst
  | cons t ts ih =>
    intro st hst
    rw [taaftToolLoop]
    split
    · exact taaftProcessTool_entries_inv hmk hst
    · exact ih _ (taaftProcessTool_entries_inv hmk hst)

theorem taaftBlobLoop_entries_inv {P : CatEntry → Prop}
    (hmk : ∀ t, P (taaftMkEntry t)) :
    ∀ bs (st : TState), (∀ e ∈ st.entries, P e) →
      ∀ e ∈ (taaftBlobLoop st bs).entries, P e := by
  intro bs
  induction bs with
  | nil => intro st hst; exact hst
  | cons b bs ih =>
    intro st hst
    rw [taaftBlobLoop]
    split
    · exact taaftToolLoop_entries_inv hmk _ st hst
    · exact ih _ (taaftToolLoop_entries_inv hmk _ st hst)

theorem taaftScrape_entries_inv {P : CatEntry → Prop}
    (hmk : ∀ t, P (taaftMkEntry t)) (blobs : List Str) :
    ∀ e ∈ (taaftScrape blobs).entries, P e := by
  refine taaftBlobLoop_entries_inv hmk blobs ⟨[], []⟩ ?_
  intro e he
  simp at he

-- ## Extraction step lemmas

theorem phStep_dup {acc : List PHProd} {g : Str × Str × Str}
    (h : acc.any (fun p => p.slug == g.2.2) = true) : phStep acc g = acc := by
  unfold phStep
  dsimp only
  repeat' split
  all_goals rfl

theorem phStep_review {acc : List PHProd} {g : Str × Str × Str}
    (h : phReviewShape (pyStrip g.1) = true) : phStep acc g = acc := by
  unfold phStep
  dsimp only
  rw [if_pos h]

theorem phStep_stoplist {acc : List PHProd} {g : Str × Str × Str}
    (h : phStoplist.contains (pyLowerList (pyStrip g.1)) = true) :
    phStep acc g = acc := by
  unfold phStep
  dsimp only
  repeat' split
  all_goals rfl

theorem phStep_len {acc : List PHProd} {g : Str × Str × Str}
    (h : (pyStrip g.1).length < 2 ∨ 200 < (pyStrip g.1).length) :
    phStep acc g = acc := by
  unfold phStep
  dsimp only
  repeat' split
  all_goals rfl

theorem taaftStep_len {acc : List TTool} {g : Str × Str}
    (h : (pyStrip g.1).length < 2 ∨ 100 < (pyStrip g.1).length) :
    taaftStep acc g = acc := by
  unfold taaftStep
  dsimp only
  repeat' split
  all_goals rfl

theorem taaftStep_cleanup_empty {acc : List TTool} {g : Str × Str}
    (h : pyStrip (stripVersionSuffix (pyStrip g.1)) = []) :
    taaftStep acc g = acc := by
  unfold taaftStep
  dsimp only
  repeat' split
  all_goals rfl
-- ## Claim C7

/-- C7: `parse_stars` maps `"12.5k"` to 12500, `"1,234"` to 1234, `""` to 0
and `"garbage"` to 0.  The final conjunct records where the code breaks the
claim's universal part: on `"infk"` (not parseable as a decimal number) the
code raises an uncaught `OverflowError` instead of returning 0, because
`float("inf")` succeeds, `int()` of an infinity raises `OverflowError`, and
the `except` clause catches only `ValueError`. -/
theorem claim_C7_parse_stars_eval :
    parse_stars "12.5k".toList = .ok 12500 ∧
    parse_stars "1,234".toList = .ok 1234 ∧
    parse_stars "".toList = .ok 0 ∧
    parse_stars "garbage".toList = .ok 0 ∧
    parse_stars "infk".toList = .error () :=
  ⟨rfl, rfl, rfl, rfl, rfl⟩

-- ## Claim C8

/-- C8: on the markdown blob
`[Acme Fix your bugs fast](https://www.producthunt.com/products/acme)` the
Product Hunt extractor yields exactly one product, with name `"Acme"`,
tagline `"Fix your bugs fast"` (the split falling at the first capitalized
word after the name) and slug `"acme"`. -/
theorem claim_C8_acme_extraction :
    extract_products_from_markdown
        "[Acme Fix your bugs fast](https://www.producthunt.com/products/acme)".toList
      = [⟨"Acme".toList, "Fix your bugs fast".toList,
          "https://www.producthunt.com/products/acme".toList, "acme".toList⟩] := by
  rfl

-- ## Claim C4

/-- C4: (i) within one extraction call a match whose slug is already present
adds nothing, so only the first occurrence in document order is retained —
illustrated concretely by a blob with two links to the same product slug;
(ii) within one pipeline run the seen-set only grows, and a row whose key
has already been seen leaves the state untouched, so an identifier emitted
once is never emitted again — illustrated concretely by two input blobs
carrying the same repository. -/
theorem claim_C4_dedup :
    (∀ (acc : List PHProd) (g : Str × Str × Str),
        acc.any (fun p => p.slug == g.2.2) = true → phStep acc g = acc) ∧
    extract_products_from_markdown
        ("[Alpha](https://www.producthunt.com/products/acme) " ++
          "[Beta](https://www.producthunt.com/products/acme)").toList
      = [⟨"Alpha".toList, "Discovered on Product Hunt: Alpha".toList,
          "https://www.producthunt.com/products/acme".toList, "acme".toList⟩] ∧
    (∀ bs (st st' : GHState), ghBlobsLoop st bs = .ok st' → st.seen ⊆ st'.seen) ∧
    (∀ (st : GHState) (row : GHRow), ghRowKey row ∈ st.seen →
        ghProcessRow st row = .ok st) ∧
    (ghScrape [[⟨some "/a/b".toList, none, none, none⟩],
        [⟨some "/a/b".toList, none, none, none⟩]]).map
        (fun s => s.entries.length) = .ok 1 :=
  ⟨fun _ _ h => phStep_dup h, by rfl, ghBlobsLoop_seen_mono,
   fun _ _ h => ghProcessRow_seen_skip h, by rfl⟩

/-- Witness for C4's universally quantified parts at concrete inputs. -/
theorem claim_C4_witness :
    phStep [⟨"A".toList, "t".toList, "u".toList, "s".toList⟩]
        ("B".toList, "u".toList, "s".toList)
      = [⟨"A".toList, "t".toList, "u".toList, "s".toList⟩] ∧
    (GHState.mk ["k".toList] []).seen ⊆ (GHState.mk ["k".toList] []).seen ∧
    ghProcessRow ⟨["/a/b".toList], []⟩ ⟨some "/a/b".toList, none, none, none⟩
      = .ok ⟨["/a/b".toList], []⟩ :=
  ⟨claim_C4_dedup.1 _ _ (by decide),
   claim_C4_dedup.2.2.1 [] _ _ (by rfl),
   claim_C4_dedup.2.2.2.1 _ _ (by decide)⟩

-- ## Claim C5

/-- C5: a github-trending run never emits more than `MAX_RESULTS` (50)
records, and a single blob of at least 50 valid distinct candidate rows
(nonempty keys, star texts that parse, pairwise distinct keys) produces
exactly 50. -/
theorem claim_C5_cap :
    (∀ blobs (st : GHState), ghScrape blobs = .ok st →
        st.entries.length ≤ MAX_RESULTS_GH) ∧
    (∀ rows : List GHRow,
        (∀ r ∈ rows, ghRowKey r ≠ [] ∧ ghStarsOk r = true) →
        (rows.map ghRowKey).Nodup → MAX_RESULTS_GH ≤ rows.length →
        ∃ st, ghScrape [rows] = .ok st ∧ st.entries.length = MAX_RESULTS_GH) := by
  constructor
  · intro blobs st h
    exact ghBlobsLoop_len_le blobs ⟨[], []⟩ st h (by decide)
  · intro rows hall hnd hlen
    obtain ⟨st', hloop, hl⟩ := ghRowsLoop_exact rows ⟨[], []⟩
      (fun r hr => ⟨(hall r hr).1, by simp, (hall r hr).2⟩) hnd (by decide)
    refine ⟨st', ?_, ?_⟩
    · show ghBlobsLoop ⟨[], []⟩ [rows] = .ok st'
      rw [ghBlobsLoop, hloop]
      dsimp only
      split
      · rfl
      · rw [ghBlobsLoop]
    · rw [hl]
      simp
      omega

/-- Witness for C5 with 55 concrete distinct valid rows: exactly 50 records
come out. -/
theorem claim_C5_witness :
    ∃ st, ghScrape [(List.range 55).map (fun i =>
        GHRow.mk (some ('r' :: Nat.toDigits 10 i)) none none none)] = .ok st ∧
      st.entries.length = MAX_RESULTS_GH :=
  claim_C5_cap.2 _ (by decide) (by decide) (by decide)
-- ## Claim C6

/-- C6 counterexample: the description field is NOT truncated to 160.  A
github-trending row whose description has 161 characters produces a catalog
record whose `description` still has 161 characters (the `[:160]` slice at
line 125 is applied to `tagline` only; line 126 applies none). -/
theorem claim_C6_counterexample :
    (ghScrape [[⟨some "/a/b".toList, some (List.replicate 161 'x'), none,
        none⟩]]).map (fun s => s.entries.map (fun e => e.description.length))
      = .ok [161] ∧ ¬(161 ≤ 160) :=
  ⟨by rfl, by decide⟩

/-- C6 amended: every record emitted by any of the three pipelines has
`tagline` of length at most 160 (the bound the code enforces with `[:160]`);
the `description` field is not truncated and may exceed 160, as the
counterexample shows. -/
theorem claim_C6_tagline_bound :
    (∀ blobs (st : GHState), ghScrape blobs = .ok st →
        ∀ e ∈ st.entries, e.tagline.length ≤ 160) ∧
    (∀ blobs, ∀ e ∈ (phScrape blobs).entries, e.tagline.length ≤ 160) ∧
    (∀ blobs, ∀ e ∈ (taaftScrape blobs).entries, e.tagline.length ≤ 160) := by
  refine ⟨?_, ?_, ?_⟩
  · intro blobs st h
    refine ghScrape_entries_inv ?_ h
    intro a b c d
    unfold ghMkEntry
    dsimp only
    simp [List.length_take]
  · intro blobs
    refine phScrape_entries_inv ?_ blobs
    intro tp p
    unfold phMkEntry
    dsimp only
    simp [List.length_take]
  · intro blobs
    refine taaftScrape_entries_inv ?_ blobs
    intro t
    unfold taaftMkEntry
    dsimp only
    simp [List.length_take]

/-- Witness for C6's amended bound at one concrete emitted record per
pipeline. -/
theorem claim_C6_witness :
    (ghMkEntry "/a/b".toList [] none 0).tagline.length ≤ 160 ∧
    (phMkEntry [] ⟨"Acme".toList, "Fix your bugs fast".toList,
        "https://www.producthunt.com/products/acme".toList,
        "acme".toList⟩).tagline.length ≤ 160 ∧
    (taaftMkEntry ⟨"CoolBot".toList, "coolbot".toList,
        "https://theresanaiforthat.com/ai/coolbot/".toList⟩).tagline.length
      ≤ 160 :=
  ⟨claim_C6_tagline_bound.1 [[⟨some "/a/b".toList, none, none, none⟩]]
      ⟨["/a/b".toList], [ghMkEntry "/a/b".toList [] none 0]⟩ (by rfl) _
      (by simp),
   claim_C6_tagline_bound.2.1
      [([], "[Acme Fix your bugs fast](https://www.producthunt.com/products/acme)".toList)]
      _ (by decide),
   claim_C6_tagline_bound.2.2
      ["[CoolBot v1.2.3](https://theresanaiforthat.com/ai/coolbot/)".toList]
      _ (by decide)⟩

-- ## Claim C9

/-- C9: a Product Hunt match whose link text has the numeric review-count
shape (concretely, the `[1.4K reviews](...)` blob yields no candidate), or
is a stoplisted navigation label, or has length outside the accepted bounds,
adds no candidate record, and the same holds of a TAAFT match with
out-of-bounds length or an empty name after version-suffix cleanup; in each
case the step function returns its accumulator unchanged, so extraction
proceeds with the remaining matches instead of failing. -/
theorem claim_C9_noise_rejection :
    extract_products_from_markdown
        "[1.4K reviews](https://www.producthunt.com/products/acme/reviews)".toList
      = [] ∧
    (∀ (acc : List PHProd) (g : Str × Str × Str),
        phReviewShape (pyStrip g.1) = true → phStep acc g = acc) ∧
    (∀ (acc : List PHProd) (g : Str × Str × Str),
        phStoplist.contains (pyLowerList (pyStrip g.1)) = true →
        phStep acc g = acc) ∧
    (∀ (acc : List PHProd) (g : Str × Str × Str),
        ((pyStrip g.1).length < 2 ∨ 200 < (pyStrip g.1).length) →
        phStep acc g = acc) ∧
    (∀ (acc : List TTool) (g : Str × Str),
        ((pyStrip g.1).length < 2 ∨ 100 < (pyStrip g.1).length) →
        taaftStep acc g = acc) ∧
    (∀ (acc : List TTool) (g : Str × Str),
        pyStrip (stripVersionSuffix (pyStrip g.1)) = [] → taaftStep acc g = acc) :=
  ⟨by rfl, fun _ _ h => phStep_review h, fun _ _ h => phStep_stoplist h,
   fun _ _ h => phStep_len h, fun _ _ h => taaftStep_len h,
   fun _ _ h => taaftStep_cleanup_empty h⟩

/-- Witness for C9's step lemmas at concrete noisy matches. -/
theorem claim_C9_witness :
    phStep [] ("1.4K reviews".toList, "u".toList, "acme".toList) = [] ∧
    phStep [] ("View all".toList, "u".toList, "acme".toList) = [] ∧
    phStep [] ("A".toList, "u".toList, "acme".toList) = [] ∧
    taaftStep [] ("A".toList, "x".toList) = [] ∧
    taaftStep [] ("   ".toList, "x".toList) = [] :=
  ⟨claim_C9_noise_rejection.2.1 [] _ (by decide),
   claim_C9_noise_rejection.2.2.1 [] _ (by decide),
   claim_C9_noise_rejection.2.2.2.1 [] _ (by decide),
   claim_C9_noise_rejection.2.2.2.2.1 [] _ (by decide),
   claim_C9_noise_rejection.2.2.2.2.2 [] _ (by decide)⟩

-- ## Claim C10

/-- C10: the keyword cascade only ever returns one of seven categories
(mcp-server, ai-agent, defi-tool, web3-tool, infra, developer-tool,
framework); it never returns `api-service` or `saas-tool`; the two
source-specific remaps can add `saas-tool` / redirect `framework`, but no
classifier output — and hence no record emitted by any of the three
pipelines — ever carries category `api-service`. -/
theorem claim_C10_seven_categories :
    (∀ t tp lg, categorize_by_keywords t tp lg ∈ CATEGORIZE_RANGE) ∧
    (∀ tl tp, categorize_producthunt tl tp ≠ "api-service".toList) ∧
    (∀ n, taaftCategory n ≠ "api-service".toList) ∧
    (∀ blobs (st : GHState), ghScrape blobs = .ok st →
        ∀ e ∈ st.entries, e.category ≠ "api-service".toList) ∧
    (∀ blobs, ∀ e ∈ (phScrape blobs).entries,
        e.category ≠ "api-service".toList) ∧
    (∀ blobs, ∀ e ∈ (taaftScrape blobs).entries,
        e.category ≠ "api-service".toList) := by
  refine ⟨categorize_mem_range, categorize_producthunt_ne_api,
    taaftCategory_ne_api, ?_, ?_, ?_⟩
  · intro blobs st h
    refine ghScrape_entries_inv ?_ h
    intro a b c d
    unfold ghMkEntry
    dsimp only
    have hm := categorize_mem_range b none c
    intro hc
    rw [hc] at hm
    revert hm
    decide
  · intro blobs
    refine phScrape_entries_inv ?_ blobs
    intro tp p
    unfold phMkEntry
    dsimp only
    exact categorize_producthunt_ne_api _ _
  · intro blobs
    refine taaftScrape_entries_inv ?_ blobs
    intro t
    unfold taaftMkEntry
    dsimp only
    exact taaftCategory_ne_api _

/-- Witness for C10's pipeline parts at one concrete emitted record per
pipeline. -/
theorem claim_C10_witness :
    (ghMkEntry "/a/b".toList [] none 0).category ≠ "api-service".toList ∧
    (phMkEntry [] ⟨"Acme".toList, "Fix your bugs fast".toList,
        "https://www.producthunt.com/products/acme".toList,
        "acme".toList⟩).category ≠ "api-service".toList ∧
    (taaftMkEntry ⟨"CoolBot".toList, "coolbot".toList,
        "https://theresanaiforthat.com/ai/coolbot/".toList⟩).category
      ≠ "api-service".toList :=
  ⟨claim_C10_seven_categories.2.2.2.1 [[⟨some "/a/b".toList, none, none, none⟩]]
      ⟨["/a/b".toList], [ghMkEntry "/a/b".toList [] none 0]⟩ (by rfl) _
      (by simp),
   claim_C10_seven_categories.2.2.2.2.1
      [([], "[Acme Fix your bugs fast](https://www.producthunt.com/products/acme)".toList)]
      _ (by decide),
   claim_C10_seven_categories.2.2.2.2.2
      ["[CoolBot v1.2.3](https://theresanaiforthat.com/ai/coolbot/)".toList]
      _ (by decide)⟩
